import Mathlib

/-!
Verification development for the `lsys` repository (Rust).

The repository has three components, embedded shallowly below:
* `src/lsystem.rs` — the instruction data model, the nom-based grammar
  parser, and the rewriting engine (`Instruction::apply`, `LSystem::step`,
  the `Iterator` instance and `reset`);
* `src/graphics.rs` — the turtle interpreter (`TurtleConfig::classify`,
  `Turtle::draw`, the `Graphics` sink trait).

Modelling conventions:
* Rust `&str` input to the parsers is modelled as `List Char`; a parser
  `fn f(input: &str) -> IResult<&str, G>` becomes
  `f : List Char → Option (G × List Char)` (returning the value and the
  unconsumed remainder; `none` is a nom error).
* nom's `iterator ... .finish()` loops are modelled by recursion.  The
  mutually recursive parser family (`instructions` / `branch` / the
  alternation loop) is defined with an explicit fuel parameter that is
  decremented at every recursive call; the public wrappers supply
  `5 * input.length + 5` fuel, which is more than the recursion can
  consume since every loop iteration consumes at least one input
  character and every surrounding call layer is entered at most once
  per character.
* `f32` coordinates of the turtle are modelled as exact rationals `ℚ`;
  `f32::cos`, `f32::sin`, `f32::rem_euclid` and the constant `2π` are
  abstract parameters (a `TrigOps` record), since no claim depends on
  concrete trigonometric values or on rounding.
-/

/-- `Instruction` from `src/lsystem.rs`: a literal symbol or a bracketed
sub-sequence (branch). -/
inductive Instruction where
  | Symbol : Char → Instruction
  | Branch : List Instruction → Instruction

abbrev Instructions := List Instruction

mutual

/-- Decidable structural equality of instructions (Rust
`#[derive(PartialEq)]`). -/
def Instruction.decEq : (a b : Instruction) → Decidable (a = b)
  | .Symbol x, .Symbol y =>
    if h : x = y then isTrue (h ▸ rfl)
    else isFalse (fun hc => h (Instruction.Symbol.inj hc))
  | .Symbol _, .Branch _ => isFalse (fun hc => Instruction.noConfusion hc)
  | .Branch _, .Symbol _ => isFalse (fun hc => Instruction.noConfusion hc)
  | .Branch xs, .Branch ys =>
    match Instruction.decEqList xs ys with
    | isTrue h => isTrue (h ▸ rfl)
    | isFalse h => isFalse (fun hc => h (Instruction.Branch.inj hc))
termination_by structural a _ => a

/-- Decidable structural equality of instruction sequences. -/
def Instruction.decEqList : (xs ys : List Instruction) → Decidable (xs = ys)
  | [], [] => isTrue rfl
  | [], _ :: _ => isFalse (fun hc => List.noConfusion hc)
  | _ :: _, [] => isFalse (fun hc => List.noConfusion hc)
  | x :: xs, y :: ys =>
    match Instruction.decEq x y, Instruction.decEqList xs ys with
    | isTrue h1, isTrue h2 => isTrue (h1 ▸ h2 ▸ rfl)
    | isFalse h1, _ => isFalse (fun hc => h1 (List.cons.inj hc).1)
    | _, isFalse h2 => isFalse (fun hc => h2 (List.cons.inj hc).2)

end

instance : DecidableEq Instruction := Instruction.decEq

/-- `type Rule = (Instruction, Instructions)` from `src/lsystem.rs`. -/
abbrev Rule := Instruction × Instructions

mutual

/-- `Instruction::apply` from `src/lsystem.rs`: scan the rules in order and
return a copy of the first matching rule's right-hand side; otherwise a
`Symbol` maps to itself and a `Branch` recurses into its contents. -/
def Instruction.apply (i : Instruction) (rules : List Rule) : Instructions :=
  match rules.find? (fun r => r.fst == i) with
  | some r => r.snd
  | none =>
    match i with
    | .Symbol c => [.Symbol c]
    | .Branch instrs => [.Branch (Instruction.applyList instrs rules)]
termination_by structural i

/-- The `flat_map` in the `Branch` arm of `Instruction::apply`, as a
recursive helper (shown below to equal `List.flatMap`). -/
def Instruction.applyList (l : List Instruction) (rules : List Rule) : Instructions :=
  match l with
  | [] => []
  | x :: xs => Instruction.apply x rules ++ Instruction.applyList xs rules

end

/-- `struct LSystem` from `src/lsystem.rs`.  The Rust field `axiom` is
named `initial` here (`axiom` is a Lean keyword). -/
structure LSystem where
  word : Instructions
  initial : Instructions
  rules : List Rule
deriving DecidableEq

/-- `LSystem::step`: rewrite the current word by one generation. -/
def LSystem.step (ls : LSystem) : LSystem :=
  { ls with word := ls.word.flatMap (fun instr => instr.apply ls.rules) }

/-- `LSystem::reset`: set the word back to the axiom. -/
def LSystem.reset (ls : LSystem) : LSystem :=
  { ls with word := ls.initial }

/-- `impl Iterator for LSystem`: `next` returns `Some` of the current word
and advances the system one step.  The mutable `self` is modelled by
returning the successor state alongside the produced item. -/
def LSystem.next (ls : LSystem) : Option Instructions × LSystem :=
  (some ls.word, ls.step)

/-! ## The grammar parser (`src/lsystem.rs`)

Parser input is `List Char`; a nom `IResult<&str, G>` is
`Option (G × Input)` with the unconsumed remainder in the second
component. -/

abbrev Input := List Char

/-- `is_branch_symbol` from `src/lsystem.rs`. -/
def is_branch_symbol (c : Char) : Bool := c = '[' || c = ']'

/-- Rust `char::is_whitespace` (the Unicode White_Space property), used by
`to_symbol`. -/
def rustIsWhitespace (c : Char) : Bool :=
  c = '\t' || c = '\n' || c.val = 11 || c.val = 12 || c.val = 13 || c = ' ' ||
  c.val = 0x85 || c.val = 0xA0 || c.val = 0x1680 ||
  (0x2000 ≤ c.val && c.val ≤ 0x200A) || c.val = 0x2028 || c.val = 0x2029 ||
  c.val = 0x202F || c.val = 0x205F || c.val = 0x3000

/-- `to_symbol` from `src/lsystem.rs`: a single non-reserved character
becomes a `Symbol`; branch symbols, whitespace and `;` are rejected. -/
def to_symbol (input : Input) : Option Instruction :=
  match input with
  | [c] =>
    if is_branch_symbol c then none
    else if rustIsWhitespace c then none
    else if c = ';' then none
    else some (Instruction.Symbol c)
  | _ => none

/-- `single_instruction` from `src/lsystem.rs`:
`map_res(take_while_m_n(1, 1, |c| !is_branch_symbol(c)), to_symbol)`. -/
def single_instruction (input : Input) : Option (Instruction × Input) :=
  match input with
  | c :: rest =>
    if is_branch_symbol c then none
    else
      match to_symbol [c] with
      | some i => some (i, rest)
      | none => none
  | [] => none

/-- The characters consumed by `remove_whitespace`'s
`alt((tag(" "), tag("\n"), tag("\t")))`. -/
def wsChar (c : Char) : Bool := c = ' ' || c = '\n' || c = '\t'

/-- The iterator loop inside `remove_whitespace`: drop every leading
`wsChar`. -/
def dropWs : Input → Input
  | [] => []
  | c :: rest => if wsChar c then dropWs rest else c :: rest

/-- `remove_whitespace` from `src/lsystem.rs`: consume one or more
space/newline/tab characters; fail if there are none. -/
def remove_whitespace (input : Input) : Option (Unit × Input) :=
  match input with
  | c :: rest => if wsChar c then some ((), dropWs rest) else none
  | [] => none

/-- `opt(remove_whitespace)`, keeping only the remainder (the parsed value
is discarded at every Rust call site). -/
def skipWs (input : Input) : Input :=
  match remove_whitespace input with
  | some (_, rest) => rest
  | none => input

/-- The `iterator(input, single_instruction)` loop of
`simple_instructions`, with explicit fuel (one unit per consumed
character, so `input.length` fuel always suffices). -/
def simpleLoopF : Nat → Input → List Instruction × Input
  | 0, input => ([], input)
  | fuel + 1, input =>
    match single_instruction input with
    | some (i, rest) =>
      let res := simpleLoopF fuel rest
      (i :: res.1, res.2)
    | none => ([], input)

/-- `simple_instructions` from `src/lsystem.rs`: a maximal non-empty run
of bare symbols; empty runs are a parse error. -/
def simple_instructions (input : Input) : Option (List Instruction × Input) :=
  let res := simpleLoopF input.length input
  if res.1.isEmpty then none else some res

mutual

/-- `branch` from `src/lsystem.rs`: `"[" instructions "]"`, wrapped in a
singleton `Branch`. -/
def branchF : Nat → Input → Option (Instructions × Input)
  | 0, _ => none
  | fuel + 1, input =>
    match input with
    | '[' :: input1 =>
      match instructionsF fuel input1 with
      | some (instrs, input2) =>
        match input2 with
        | ']' :: input3 => some ([Instruction.Branch instrs], input3)
        | _ => none
      | none => none
    | _ => none

/-- `instructions` from `src/lsystem.rs`: optional leading whitespace,
then the flattening iterator over the alternation
`alt((simple_instructions, branch, remove_whitespace ↦ []))`.  It never
fails (given fuel): the loop just stops at the first position where no
alternative applies. -/
def instructionsF : Nat → Input → Option (Instructions × Input)
  | 0, _ => none
  | fuel + 1, input =>
    some (instrLoopF fuel (skipWs input))

/-- The `iterator(...).flatten()` loop inside `instructions`. -/
def instrLoopF : Nat → Input → List Instruction × Input
  | 0, input => ([], input)
  | fuel + 1, input =>
    match altStepF fuel input with
    | some (items, rest) =>
      let res := instrLoopF fuel rest
      (items ++ res.1, res.2)
    | none => ([], input)

/-- One round of the alternation inside `instructions`:
`simple_instructions`, else `branch`, else whitespace mapped to `[]`. -/
def altStepF : Nat → Input → Option (List Instruction × Input)
  | 0, _ => none
  | fuel + 1, input =>
    match simple_instructions input with
    | some r => some r
    | none =>
      match branchF fuel input with
      | some r => some r
      | none =>
        match remove_whitespace input with
        | some (_, rest) => some ([], rest)
        | none => none

end

/-- Fuel bound for the mutually recursive parser family: every loop
iteration consumes at least one character and each call layer costs one
unit, so five units per character plus slack is always enough. -/
def parserFuel (input : Input) : Nat := 5 * input.length + 5

/-- `instructions` entry point (fuel instantiated). -/
def instructions (input : Input) : Option (Instructions × Input) :=
  instructionsF (parserFuel input) input

/-- `branch` entry point (fuel instantiated). -/
def branch (input : Input) : Option (Instructions × Input) :=
  branchF (parserFuel input) input

/-- nom `tag("->")`. -/
def tagArrow : Input → Option Input
  | '-' :: '>' :: rest => some rest
  | _ => none

/-- nom `tag(";")`. -/
def tagSemi : Input → Option Input
  | ';' :: rest => some rest
  | _ => none

/-- `rule` from `src/lsystem.rs`:
`ws? single_instruction ws? "->" ws? instructions`. -/
def rule (input : Input) : Option (Rule × Input) :=
  match single_instruction (skipWs input) with
  | none => none
  | some (f, input2) =>
    match tagArrow (skipWs input2) with
    | none => none
    | some input4 =>
      match instructions (skipWs input4) with
      | some (target, input6) => some ((f, target), input6)
      | none => none

/-- `terminate` from `src/lsystem.rs`: run `f`, skip optional whitespace,
then require a `;`. -/
def terminate (f : Input → Option (α × Input)) (input : Input) : Option (α × Input) :=
  match f input with
  | none => none
  | some (res, input1) =>
    match tagSemi (skipWs input1) with
    | none => none
    | some input2 => some (res, input2)

/-- The `iterator(input, terminate(rule))` loop of `lsystem`: collect
rules until one fails to parse; never fails itself.  Each successful
iteration consumes at least two characters, so `input.length` fuel
suffices. -/
def ruleLoopF : Nat → Input → List Rule × Input
  | 0, input => ([], input)
  | fuel + 1, input =>
    match terminate rule input with
    | some (r, rest) =>
      let res := ruleLoopF fuel rest
      (r :: res.1, res.2)
    | none => ([], input)

/-- The rule-collection loop, fuel instantiated. -/
def ruleLoop (input : Input) : List Rule × Input := ruleLoopF input.length input

/-- `lsystem` from `src/lsystem.rs`: a `;`-terminated axiom, then the
rule-collection loop; whatever follows is left unconsumed. -/
def lsystem (input : Input) : Option (LSystem × Input) :=
  match terminate instructions input with
  | none => none
  | some (instr, input1) =>
    some ({ word := instr, initial := instr, rules := (ruleLoop input1).1 }, (ruleLoop input1).2)

/-- `LSystem::from_str`: parse and drop the unconsumed remainder. -/
def LSystem.from_str (input : Input) : Option LSystem :=
  (lsystem input).map (fun r => r.fst)

/-! ## The turtle interpreter (`src/graphics.rs`)

`f32` is modelled as `ℚ`; `cos`, `sin`, `rem_euclid` and `2π` are the
abstract operations of a `TrigOps` record.  The `Graphics` trait with its
single method `draw_line(&mut self, c_0, c_1) -> Result<(), R>` is
modelled as a state-passing function `G → point → point → Except E G`. -/

/-- The `f32` operations used by the turtle, left abstract. -/
structure TrigOps where
  cos : ℚ → ℚ
  sin : ℚ → ℚ
  remEuclid : ℚ → ℚ → ℚ
  twoPi : ℚ

/-- `TurtleConfig` from `src/graphics.rs`; the four classifier `&str`
fields become character lists. -/
structure TurtleConfig where
  delta_ang : ℚ
  stepsize : ℚ
  draw_forward : List Char
  draw_backward : List Char
  forward : List Char
  backwards : List Char

/-- `enum Step` from `src/graphics.rs`. -/
inductive Step where
  | Forward
  | Backward
  | DrawForward
  | DrawBackward
deriving DecidableEq

/-- `TurtleConfig::classify`: check the four sets in the fixed order
draw-forward, draw-backward, forward, backward. -/
def TurtleConfig.classify (cfg : TurtleConfig) (symbol : Char) : Option Step :=
  if cfg.draw_forward.contains symbol then some .DrawForward
  else if cfg.draw_backward.contains symbol then some .DrawBackward
  else if cfg.forward.contains symbol then some .Forward
  else if cfg.backwards.contains symbol then some .Backward
  else none

/-- `Turtle` state (the `config` reference is passed separately). -/
structure Turtle where
  x : ℚ
  y : ℚ
  angle : ℚ
deriving DecidableEq

/-- `Turtle::pos`. -/
def Turtle.pos (t : Turtle) : ℚ × ℚ := (t.x, t.y)

/-- `Turtle::with_config`: the initial state `(0, 0, 0)`. -/
def Turtle.start : Turtle := { x := 0, y := 0, angle := 0 }

/-- `Turtle::step_forward`. -/
def Turtle.step_forward (ops : TrigOps) (cfg : TurtleConfig) (t : Turtle) : Turtle :=
  { t with
    x := t.x + ops.cos t.angle * cfg.stepsize
    y := t.y + ops.sin t.angle * cfg.stepsize }

/-- `Turtle::step_backwards`. -/
def Turtle.step_backwards (ops : TrigOps) (cfg : TurtleConfig) (t : Turtle) : Turtle :=
  { t with
    x := t.x - ops.cos t.angle * cfg.stepsize
    y := t.y - ops.sin t.angle * cfg.stepsize }

/-- `Turtle::turn_left`: `(angle - delta_ang).rem_euclid(2π)`. -/
def Turtle.turn_left (ops : TrigOps) (cfg : TurtleConfig) (t : Turtle) : Turtle :=
  { t with angle := ops.remEuclid (t.angle - cfg.delta_ang) ops.twoPi }

/-- `Turtle::turn_right`: `(angle + delta_ang).rem_euclid(2π)`. -/
def Turtle.turn_right (ops : TrigOps) (cfg : TurtleConfig) (t : Turtle) : Turtle :=
  { t with angle := ops.remEuclid (t.angle + cfg.delta_ang) ops.twoPi }

mutual

/-- The body of the `for instruction in instructions` loop of
`Turtle::draw`, for one instruction: it yields the updated turtle and
sink, or the propagated sink error.  The `Branch` arm runs `draw` on the
branch contents with a value copy of the turtle (`self.clone()`) and, on
success, returns the original turtle unchanged. -/
def Turtle.drawOne {G E : Type} (ops : TrigOps) (cfg : TurtleConfig)
    (drawLine : G → ℚ × ℚ → ℚ × ℚ → Except E G) :
    Turtle → G → Instruction → Except E (Turtle × G)
  | t, g, .Symbol c =>
    if c = '+' then .ok (t.turn_left ops cfg, g)
    else if c = '-' then .ok (t.turn_right ops cfg, g)
    else
      match cfg.classify c with
      | none => .ok (t, g)
      | some step =>
        let before := t.pos
        match step with
        | .Forward => .ok (t.step_forward ops cfg, g)
        | .DrawForward =>
          let t1 := t.step_forward ops cfg
          match drawLine g before t1.pos with
          | .error e => .error e
          | .ok g1 => .ok (t1, g1)
        | .Backward => .ok (t.step_backwards ops cfg, g)
        | .DrawBackward =>
          let t1 := t.step_backwards ops cfg
          match drawLine g before t1.pos with
          | .error e => .error e
          | .ok g1 => .ok (t1, g1)
  | t, g, .Branch ins =>
    match Turtle.draw ops cfg drawLine t g ins with
    | .error e => .error e
    | .ok g1 => .ok (t, g1)
termination_by structural _t _g i => i

/-- `Turtle::draw` from `src/graphics.rs`: interpret the instruction
sequence, threading the sink state and aborting on the first sink
error. -/
def Turtle.draw {G E : Type} (ops : TrigOps) (cfg : TurtleConfig)
    (drawLine : G → ℚ × ℚ → ℚ × ℚ → Except E G) :
    Turtle → G → Instructions → Except E G
  | _, g, [] => .ok g
  | t, g, i :: rest =>
    match Turtle.drawOne ops cfg drawLine t g i with
    | .error e => .error e
    | .ok (t1, g1) => Turtle.draw ops cfg drawLine t1 g1 rest

end

/-- A line segment: the two endpoints handed to `draw_line`. -/
abbrev Seg := (ℚ × ℚ) × (ℚ × ℚ)

mutual

/-- Specification-side companion of `Turtle.drawOne`: the turtle after
one instruction together with the segments that instruction emits
(independent of any sink). -/
def Turtle.stepSegs (ops : TrigOps) (cfg : TurtleConfig) :
    Turtle → Instruction → Turtle × List Seg
  | t, .Symbol c =>
    if c = '+' then (t.turn_left ops cfg, [])
    else if c = '-' then (t.turn_right ops cfg, [])
    else
      match cfg.classify c with
      | none => (t, [])
      | some .Forward => (t.step_forward ops cfg, [])
      | some .DrawForward => (t.step_forward ops cfg, [(t.pos, (t.step_forward ops cfg).pos)])
      | some .Backward => (t.step_backwards ops cfg, [])
      | some .DrawBackward =>
        (t.step_backwards ops cfg, [(t.pos, (t.step_backwards ops cfg).pos)])
  | t, .Branch ins => (t, Turtle.segs ops cfg t ins)
termination_by structural _t i => i

/-- The full segment list a turtle run emits. -/
def Turtle.segs (ops : TrigOps) (cfg : TurtleConfig) :
    Turtle → Instructions → List Seg
  | _, [] => []
  | t, i :: rest =>
    (Turtle.stepSegs ops cfg t i).2 ++ Turtle.segs ops cfg (Turtle.stepSegs ops cfg t i).1 rest

end

/-- Replay a segment list against a sink: the sink-visible behaviour of a
turtle run. -/
def runSegs {G E : Type} (drawLine : G → ℚ × ℚ → ℚ × ℚ → Except E G) :
    G → List Seg → Except E G
  | g, [] => .ok g
  | g, s :: rest =>
    match drawLine g s.1 s.2 with
    | .error e => .error e
    | .ok g1 => runSegs drawLine g1 rest

/-- A sink that records every segment and never fails. -/
def recordSink : List Seg → ℚ × ℚ → ℚ × ℚ → Except Unit (List Seg) :=
  fun g a b => .ok (g ++ [(a, b)])

/-- A sink that records segments but fails on its `k`-th call (counting
from zero), returning the segments recorded so far as the error. -/
def failSink (k : Nat) : Nat × List Seg → ℚ × ℚ → ℚ × ℚ → Except (List Seg) (Nat × List Seg) :=
  fun s a b => if s.1 = k then .error s.2 else .ok (s.1 + 1, s.2 ++ [(a, b)])

/-- The instruction sequence parsed from `[F]F`, used by the
branch-isolation example. -/
def progC1 : Instructions := [.Branch [.Symbol 'F'], .Symbol 'F']

/-- A concrete `TrigOps` instantiation for witnesses. -/
def opsW : TrigOps :=
  { cos := fun _ => 1, sin := fun _ => 0, remEuclid := fun a _ => a, twoPi := 7 }

/-- A concrete `TurtleConfig` instantiation for witnesses. -/
def cfgW : TurtleConfig :=
  { delta_ang := 1, stepsize := 2, draw_forward := ['F'], draw_backward := ['f'],
    forward := [], backwards := [] }

/-- The `LSystem` parsed from `F;F->G;`, used by witnesses. -/
def lsW : LSystem :=
  { word := [.Symbol 'F'], initial := [.Symbol 'F'],
    rules := [(.Symbol 'F', [.Symbol 'G'])] }

/-! ### `Turtle.draw` factors through the emitted segment list -/

theorem runSegs_append {G E : Type} (dl : G → ℚ × ℚ → ℚ × ℚ → Except E G)
    (l1 l2 : List Seg) : ∀ g : G,
    runSegs dl g (l1 ++ l2) = (runSegs dl g l1).bind (fun g1 => runSegs dl g1 l2) := by
  induction l1 with
  | nil => intro g; rfl
  | cons s rest ih =>
    intro g
    simp only [List.cons_append, runSegs]
    cases dl g s.1 s.2 with
    | error e => rfl
    | ok g1 => simpa using ih g1

/-- The sink-visible behaviour of `Turtle::draw` is exactly the replay of
the segment list `Turtle.segs` against the sink. -/
theorem Turtle.draw_runSegs {G E : Type} (ops : TrigOps) (cfg : TurtleConfig)
    (dl : G → ℚ × ℚ → ℚ × ℚ → Except E G) :
    ∀ (t : Turtle) (l : Instructions) (g : G),
      Turtle.draw ops cfg dl t g l = runSegs dl g (Turtle.segs ops cfg t l) := by
  have main := @Turtle.segs.induct ops cfg
    (fun t i => ∀ g, Turtle.drawOne ops cfg dl t g i =
      (runSegs dl g (Turtle.stepSegs ops cfg t i).2).map
        (fun g1 => ((Turtle.stepSegs ops cfg t i).1, g1)))
    (fun t l => ∀ g, Turtle.draw ops cfg dl t g l = runSegs dl g (Turtle.segs ops cfg t l))
  refine fun t l g => ?_
  refine main ?_ ?_ ?_ ?_ ?_ ?_ ?_ ?_ ?_ ?_ t l g
  · intro t g
    simp [Turtle.drawOne, Turtle.stepSegs, runSegs, Except.map]
  · intro t h g
    simp [Turtle.drawOne, Turtle.stepSegs, runSegs, Except.map]
  · intro t c h1 h2 hcl g
    simp [Turtle.drawOne, Turtle.stepSegs, runSegs, Except.map, h1, h2, hcl]
  · intro t c h1 h2 hcl g
    simp [Turtle.drawOne, Turtle.stepSegs, runSegs, Except.map, h1, h2, hcl]
  · intro t c h1 h2 hcl g
    simp only [Turtle.drawOne, Turtle.stepSegs, h1, h2, hcl, if_false, if_neg]
    cases h : dl g t.pos ((t.step_forward ops cfg).pos) <;>
      simp [runSegs, h, Except.map]
  · intro t c h1 h2 hcl g
    simp [Turtle.drawOne, Turtle.stepSegs, runSegs, Except.map, h1, h2, hcl]
  · intro t c h1 h2 hcl g
    simp only [Turtle.drawOne, Turtle.stepSegs, h1, h2, hcl, if_false, if_neg]
    cases h : dl g t.pos ((t.step_backwards ops cfg).pos) <;>
      simp [runSegs, h, Except.map]
  · intro t ins ih g
    simp only [Turtle.drawOne, Turtle.stepSegs]
    rw [ih g]
    cases runSegs dl g (Turtle.segs ops cfg t ins) <;> simp [Except.map]
  · intro t g
    simp [Turtle.draw, Turtle.segs, runSegs]
  · intro t i rest ih1 ih2 g
    simp only [Turtle.draw, Turtle.segs]
    rw [runSegs_append, ih1 g]
    cases h : runSegs dl g (Turtle.stepSegs ops cfg t i).2 with
    | error e => simp [Except.map, Except.bind]
    | ok g1 => simp [Except.map, Except.bind, ih2 g1]

/-- Replaying against the recording sink appends the segments and never
fails. -/
theorem runSegs_recordSink (l : List Seg) : ∀ g : List Seg,
    runSegs recordSink g l = .ok (g ++ l) := by
  induction l with
  | nil => intro g; simp [runSegs]
  | cons s rest ih =>
    intro g
    simp only [runSegs, recordSink]
    rw [ih]
    simp

/-- Replaying against the failing sink: if the whole list fits under the
budget `k` it is recorded in full, otherwise the replay stops with an
error carrying exactly the first `k - n` segments. -/
theorem runSegs_failSink (k : Nat) (l : List Seg) : ∀ (n : Nat) (log : List Seg), n ≤ k →
    runSegs (failSink k) (n, log) l =
      if n + l.length ≤ k then .ok (n + l.length, log ++ l)
      else .error (log ++ l.take (k - n)) := by
  induction l with
  | nil =>
    intro n log hn
    simp [runSegs, hn]
  | cons s rest ih =>
    intro n log hn
    by_cases hnk : n = k
    · subst hnk
      have hsink : failSink n (n, log) s.1 s.2 = .error log := by simp [failSink]
      simp only [runSegs, hsink]
      rw [if_neg (by simp only [List.length_cons]; omega)]
      have h0 : n - n = 0 := by omega
      simp [h0]
    · have hn1 : n + 1 ≤ k := by omega
      have hsink : failSink k (n, log) s.1 s.2 = .ok (n + 1, log ++ [s]) := by
        simp [failSink, hnk]
      simp only [runSegs, hsink]
      rw [ih (n + 1) (log ++ [s]) hn1]
      by_cases hfit : n + 1 + rest.length ≤ k
      · rw [if_pos hfit, if_pos (by simp only [List.length_cons]; omega)]
        have harith : n + 1 + rest.length = n + (rest.length + 1) := by omega
        simp only [List.append_assoc, List.singleton_append, List.length_cons, harith]
      · rw [if_neg hfit, if_neg (by simp only [List.length_cons]; omega)]
        have htake : k - n = (k - (n + 1)) + 1 := by omega
        simp [htake, List.take_succ_cons]

/-! ### Support lemmas for the claims -/

theorem Instruction.applyList_eq_flatMap (l : List Instruction) (rules : List Rule) :
    Instruction.applyList l rules = l.flatMap (fun i => i.apply rules) := by
  induction l with
  | nil => rfl
  | cons x xs ih => simp [Instruction.applyList, List.flatMap_cons, ih]

theorem instr_beq_eq_decide (a b : Instruction) : (a == b) = decide (a = b) := rfl

theorem find?_append_of_none {α : Type} {p : α → Bool} {l1 : List α} (l2 : List α)
    (h : l1.find? p = none) : (l1 ++ l2).find? p = l2.find? p := by
  induction l1 with
  | nil => rfl
  | cons x xs ih =>
    rw [List.find?_cons] at h
    cases hp : p x with
    | true => rw [hp] at h; simp at h
    | false =>
      rw [hp] at h
      simp only [List.cons_append, List.find?_cons, hp]
      exact ih h

theorem single_instruction_symbol : ∀ {input : Input} {i : Instruction} {rest : Input},
    single_instruction input = some (i, rest) → ∃ c, i = .Symbol c := by
  intro input i rest h
  match input with
  | [] => simp [single_instruction] at h
  | c :: cs =>
    simp only [single_instruction, to_symbol] at h
    split_ifs at h
    all_goals simp_all
    exact ⟨c, h.1.symm⟩

theorem terminate_some {α : Type} {f : Input → Option (α × Input)} {input : Input}
    {res : α} {rest : Input} (h : terminate f input = some (res, rest)) :
    ∃ mid, f input = some (res, mid) := by
  simp only [terminate] at h
  cases hf : f input with
  | none => rw [hf] at h; simp at h
  | some v =>
    obtain ⟨r0, mid⟩ := v
    rw [hf] at h
    simp only at h
    cases htag : tagSemi (skipWs mid) with
    | none => rw [htag] at h; simp at h
    | some input2 =>
      rw [htag] at h
      simp only [Option.some.injEq, Prod.mk.injEq] at h
      obtain ⟨ha, _⟩ := h
      subst ha
      exact ⟨mid, rfl⟩

theorem rule_fst_symbol : ∀ {input : Input} {r : Rule} {rest : Input},
    rule input = some (r, rest) → ∃ c, r.fst = .Symbol c := by
  intro input r rest h
  simp only [rule] at h
  cases hsi : single_instruction (skipWs input) with
  | none => rw [hsi] at h; cases h
  | some v =>
    obtain ⟨f, input2⟩ := v
    rw [hsi] at h
    simp only at h
    obtain ⟨c, hc⟩ := single_instruction_symbol hsi
    cases htag : tagArrow (skipWs input2) with
    | none => rw [htag] at h; cases h
    | some input4 =>
      rw [htag] at h
      simp only at h
      cases hi : instructions (skipWs input4) with
      | none => rw [hi] at h; cases h
      | some w =>
        obtain ⟨target, input6⟩ := w
        rw [hi] at h
        simp only [Option.some.injEq, Prod.mk.injEq] at h
        obtain ⟨hr, _⟩ := h
        subst hr
        exact ⟨c, hc⟩

theorem ruleLoopF_fst_symbol : ∀ (fuel : Nat) (input : Input) (r : Rule),
    r ∈ (ruleLoopF fuel input).1 → ∃ c, r.fst = .Symbol c := by
  intro fuel
  induction fuel with
  | zero => intro input r hr; simp [ruleLoopF] at hr
  | succ n ih =>
    intro input r hr
    simp only [ruleLoopF] at hr
    cases ht : terminate rule input with
    | none => rw [ht] at hr; simp at hr
    | some v =>
      obtain ⟨r0, rest⟩ := v
      rw [ht] at hr
      simp only [List.mem_cons] at hr
      rcases hr with h | h
      · subst h
        obtain ⟨mid, hmid⟩ := terminate_some ht
        exact rule_fst_symbol hmid
      · exact ih rest r h

theorem apply_branch_of_rules_symbol {rules : List Rule}
    (h : ∀ r ∈ rules, ∃ c, r.fst = Instruction.Symbol c) (inner : Instructions) :
    Instruction.apply (.Branch inner) rules =
      [.Branch (inner.flatMap (fun i => i.apply rules))] := by
  have hfind : rules.find? (fun r => r.fst == Instruction.Branch inner) = none := by
    rw [List.find?_eq_none]
    intro r hr
    obtain ⟨c, hc⟩ := h r hr
    simp [hc, instr_beq_eq_decide]
  rw [Instruction.apply, hfind, Instruction.applyList_eq_flatMap]

theorem classify_of_mem_draw_forward {cfg : TurtleConfig} {c : Char}
    (h : c ∈ cfg.draw_forward) : cfg.classify c = some .DrawForward := by
  simp [TurtleConfig.classify, h]

theorem runSegs_ok_of_sink_ok {G E : Type} {dl : G → ℚ × ℚ → ℚ × ℚ → Except E G}
    (hdl : ∀ (s : G) (a b : ℚ × ℚ), ∃ s', dl s a b = .ok s') :
    ∀ (l : List Seg) (g : G), ∃ g', runSegs dl g l = .ok g' := by
  intro l
  induction l with
  | nil => intro g; exact ⟨g, rfl⟩
  | cons s rest ih =>
    intro g
    obtain ⟨g1, hg1⟩ := hdl g s.1 s.2
    obtain ⟨g2, hg2⟩ := ih g1
    exact ⟨g2, by simp only [runSegs, hg1, hg2]⟩

/-! ### Sanity checks

The first two mirror the behaviour of `Instruction::apply`; the rest
mirror the unit tests at the bottom of `src/lsystem.rs`. -/

example : Instruction.apply (.Symbol 'A')
    [(.Symbol 'A', [.Symbol 'B']), (.Symbol 'A', [.Symbol 'C'])] = [.Symbol 'B'] := by decide

example : Instruction.apply (.Symbol 'X') [(.Symbol 'A', [.Symbol 'B'])] = [.Symbol 'X'] := by
  decide

example : simple_instructions ['F', 'G'] =
    some ([.Symbol 'F', .Symbol 'G'], []) := by decide
example : simple_instructions ('F' :: 'G' :: "[FGFGF]".toList) =
    some ([.Symbol 'F', .Symbol 'G'], "[FGFGF]".toList) := by decide
example : branch ("[FG]".toList) = some ([.Branch [.Symbol 'F', .Symbol 'G']], []) := by decide
example : instructions ("FG[FGF]FG".toList) =
    some ([.Symbol 'F', .Symbol 'G', .Branch [.Symbol 'F', .Symbol 'G', .Symbol 'F'],
      .Symbol 'F', .Symbol 'G'], []) := by decide
example : (instructions ("FGFGHA[DOAIJD".toList)).map (fun r => r.snd) =
    some ("[DOAIJD".toList) := by decide
example : (instructions ("FGFGHA[DOAIJD]]".toList)).map (fun r => r.snd) =
    some ("]".toList) := by decide
example : rule ("A->KJH".toList) =
    some ((.Symbol 'A', [.Symbol 'K', .Symbol 'J', .Symbol 'H']), []) := by decide
example : rule ("  \t\nA->KJH".toList) =
    some ((.Symbol 'A', [.Symbol 'K', .Symbol 'J', .Symbol 'H']), []) := by decide
example : LSystem.from_str ("F;F->GF;G->F;".toList) =
    some { word := [.Symbol 'F'], initial := [.Symbol 'F'],
           rules := [(.Symbol 'F', [.Symbol 'G', .Symbol 'F']),
                     (.Symbol 'G', [.Symbol 'F'])] } := by decide


/-! ### The claims -/

/-- C2: `apply(Symbol(c), rules)` returns the `to` of the first rule in
declaration order whose `from` equals `Symbol(c)`; with rules
`[(A→B), (A→C)]` it yields `B`; and a symbol with no matching rule maps
to the singleton `[Symbol(c)]` unchanged. -/
theorem C2_apply_first_match :
    (∀ (c : Char) (tgt : Instructions) (rules1 rules2 : List Rule),
      (∀ r ∈ rules1, r.fst ≠ .Symbol c) →
      Instruction.apply (.Symbol c) (rules1 ++ (.Symbol c, tgt) :: rules2) = tgt)
  ∧ (∀ (c : Char) (rules : List Rule),
      (∀ r ∈ rules, r.fst ≠ .Symbol c) →
      Instruction.apply (.Symbol c) rules = [.Symbol c])
  ∧ Instruction.apply (.Symbol 'A')
      [(.Symbol 'A', [.Symbol 'B']), (.Symbol 'A', [.Symbol 'C'])] = [.Symbol 'B'] := by
  refine ⟨?_, ?_, by decide⟩
  · intro c tgt rules1 rules2 h
    have h1 : rules1.find? (fun r => r.fst == Instruction.Symbol c) = none := by
      rw [List.find?_eq_none]
      intro r hr
      simp [instr_beq_eq_decide, h r hr]
    rw [Instruction.apply, find?_append_of_none _ h1, List.find?_cons_of_pos]
    simp [instr_beq_eq_decide]
  · intro c rules h
    have h1 : rules.find? (fun r => r.fst == Instruction.Symbol c) = none := by
      rw [List.find?_eq_none]
      intro r hr
      simp [instr_beq_eq_decide, h r hr]
    rw [Instruction.apply, h1]

/-- C2 witness: the first-match branch applied at a concrete rule list. -/
theorem C2_apply_first_match_witness :
    Instruction.apply (.Symbol 'A')
      ([(.Symbol 'B', [.Symbol 'D'])] ++ (.Symbol 'A', [.Symbol 'K']) :: []) = [.Symbol 'K'] :=
  C2_apply_first_match.1 'A' [.Symbol 'K'] [(.Symbol 'B', [.Symbol 'D'])] [] (by decide)

/-- C3: for every `LSystem` produced by the parser every rule
left-hand side is a bare `Symbol`, so `apply(Branch(inner), rules)` is
the singleton branch of the flattened child expansions: branches are
never matched against rules. -/
theorem C3_branch_never_matched :
    ∀ (input : Input) (ls : LSystem) (rem : Input),
      lsystem input = some (ls, rem) →
      ∀ inner : Instructions,
        Instruction.apply (.Branch inner) ls.rules =
          [.Branch (inner.flatMap (fun i => i.apply ls.rules))] := by
  intro input ls rem h inner
  refine apply_branch_of_rules_symbol ?_ inner
  intro r hr
  simp only [lsystem] at h
  cases ht : terminate instructions input with
  | none => rw [ht] at h; cases h
  | some v =>
    obtain ⟨ax, input1⟩ := v
    rw [ht] at h
    simp only [Option.some.injEq, Prod.mk.injEq] at h
    obtain ⟨hls, _⟩ := h
    subst hls
    exact ruleLoopF_fst_symbol input1.length input1 r hr

/-- C3 witness: the parsed system `F;F->G;` at branch `[F]`. -/
theorem C3_branch_never_matched_witness :
    Instruction.apply (.Branch [.Symbol 'F']) lsW.rules =
      [.Branch (([.Symbol 'F'] : Instructions).flatMap (fun i => i.apply lsW.rules))] :=
  C3_branch_never_matched ("F;F->G;".toList) lsW [] (by decide) [.Symbol 'F']

/-- C4: the generation iterator always returns `Some` of the current
word and advances by exactly one rewrite step; `reset` restores the
axiom, so the next pull yields the axiom. -/
theorem C4_iterator_total :
    ∀ ls : LSystem,
      ls.next.1 = some ls.word ∧
      ls.next.2 = { word := ls.word.flatMap (fun i => i.apply ls.rules),
                    initial := ls.initial, rules := ls.rules } ∧
      ls.reset.word = ls.initial ∧
      ls.reset.next.1 = some ls.initial :=
  fun _ => ⟨rfl, rfl, rfl, rfl⟩

/-- C6: once the `;`-terminated axiom parses, the whole parse succeeds:
rules are collected until the first failure, everything left over is
silently dropped by `from_str`, and a malformed trailing rule merely
stops collection (shown concretely on `F;F->G;A-`). -/
theorem C6_trailing_input_discarded :
    (∀ (input : Input) (ax : Instructions) (rest : Input),
      terminate instructions input = some (ax, rest) →
      lsystem input =
        some ({ word := ax, initial := ax, rules := (ruleLoop rest).1 }, (ruleLoop rest).2) ∧
      LSystem.from_str input =
        some { word := ax, initial := ax, rules := (ruleLoop rest).1 })
  ∧ (∀ input : Input, terminate rule input = none → ruleLoop input = ([], input))
  ∧ LSystem.from_str ("F;F->G;A-".toList) =
      some { word := [.Symbol 'F'], initial := [.Symbol 'F'],
             rules := [(.Symbol 'F', [.Symbol 'G'])] } := by
  refine ⟨?_, ?_, by decide⟩
  · intro input ax rest h
    constructor
    · simp only [lsystem, h]
    · simp only [LSystem.from_str, lsystem, h]
      rfl
  · intro input h
    unfold ruleLoop
    cases hl : input.length with
    | zero => rfl
    | succ n => simp [ruleLoopF, h]

/-- C6 witness: the general clause applied to `F;F->G;A-`. -/
theorem C6_trailing_input_discarded_witness :
    lsystem ("F;F->G;A-".toList) =
      some ({ word := [.Symbol 'F'], initial := [.Symbol 'F'],
              rules := (ruleLoop ("F->G;A-".toList)).1 }, (ruleLoop ("F->G;A-".toList)).2) ∧
    LSystem.from_str ("F;F->G;A-".toList) =
      some { word := [.Symbol 'F'], initial := [.Symbol 'F'],
             rules := (ruleLoop ("F->G;A-".toList)).1 } :=
  C6_trailing_input_discarded.1 ("F;F->G;A-".toList) [.Symbol 'F'] "F->G;A-".toList (by decide)

/-- C7: an unmatched `[` stops the instruction parser, which leaves the
remainder starting at the stray bracket unconsumed; an extra `]` is
likewise left over. -/
theorem C7_unmatched_brackets :
    instructions ("FGFGHA[DOAIJD".toList) =
      some ([.Symbol 'F', .Symbol 'G', .Symbol 'F', .Symbol 'G', .Symbol 'H', .Symbol 'A'],
        "[DOAIJD".toList)
  ∧ instructions ("FGFGHA[DOAIJD]]".toList) =
      some ([.Symbol 'F', .Symbol 'G', .Symbol 'F', .Symbol 'G', .Symbol 'H', .Symbol 'A',
        .Branch [.Symbol 'D', .Symbol 'O', .Symbol 'A', .Symbol 'I', .Symbol 'J', .Symbol 'D']],
        [']']) :=
  ⟨by decide, by decide⟩

/-- C10: the grammar accepts an empty rule replacement — `A->;` parses
to `(Symbol('A'), [])` because `instructions` can succeed consuming
nothing — and applying such a rule erases the symbol from the next
generation. -/
theorem C10_empty_replacement :
    rule ("A->;".toList) = some ((.Symbol 'A', ([] : Instructions)), [';'])
  ∧ terminate rule ("A->;".toList) = some ((.Symbol 'A', ([] : Instructions)), [])
  ∧ instructions [';'] = some (([] : Instructions), [';'])
  ∧ Instruction.apply (.Symbol 'A') [(.Symbol 'A', [])] = []
  ∧ (LSystem.step { word := [.Symbol 'A'], initial := [.Symbol 'A'],
                    rules := [(.Symbol 'A', [])] }).word = [] :=
  ⟨by decide, by decide, by decide, by decide, by decide⟩

/-- C8: `+` and `-` turn the turtle by `delta_ang` (reduced with
`rem_euclid` by `2π`), leave the position unchanged, emit no segment and
take no step, regardless of the configured classifier sets. -/
theorem C8_turn_symbols :
    ∀ {G E : Type} (ops : TrigOps) (cfg : TurtleConfig)
      (dl : G → ℚ × ℚ → ℚ × ℚ → Except E G) (t : Turtle) (g : G) (rest : Instructions),
      Turtle.draw ops cfg dl t g (.Symbol '+' :: rest) =
        Turtle.draw ops cfg dl
          { x := t.x, y := t.y, angle := ops.remEuclid (t.angle - cfg.delta_ang) ops.twoPi }
          g rest
    ∧ Turtle.draw ops cfg dl t g (.Symbol '-' :: rest) =
        Turtle.draw ops cfg dl
          { x := t.x, y := t.y, angle := ops.remEuclid (t.angle + cfg.delta_ang) ops.twoPi }
          g rest :=
  fun _ _ _ _ _ _ => ⟨rfl, rfl⟩

/-- C9: classification tries draw-forward, draw-backward, forward,
backward in that order, the first containing set wins, and a character
in none of the sets (other than the reserved `+`/`-`) is a no-op. -/
theorem C9_classify_priority :
    (∀ (cfg : TurtleConfig) (c : Char),
        c ∈ cfg.draw_forward → cfg.classify c = some .DrawForward)
  ∧ (∀ (cfg : TurtleConfig) (c : Char),
        c ∉ cfg.draw_forward → c ∈ cfg.draw_backward → cfg.classify c = some .DrawBackward)
  ∧ (∀ (cfg : TurtleConfig) (c : Char),
        c ∉ cfg.draw_forward → c ∉ cfg.draw_backward → c ∈ cfg.forward →
        cfg.classify c = some .Forward)
  ∧ (∀ (cfg : TurtleConfig) (c : Char),
        c ∉ cfg.draw_forward → c ∉ cfg.draw_backward → c ∉ cfg.forward →
        c ∈ cfg.backwards → cfg.classify c = some .Backward)
  ∧ (∀ (cfg : TurtleConfig) (c : Char),
        c ∉ cfg.draw_forward → c ∉ cfg.draw_backward → c ∉ cfg.forward →
        c ∉ cfg.backwards → cfg.classify c = none)
  ∧ (∀ {G E : Type} (ops : TrigOps) (cfg : TurtleConfig)
        (dl : G → ℚ × ℚ → ℚ × ℚ → Except E G) (t : Turtle) (g : G)
        (rest : Instructions) (c : Char),
        c ≠ '+' → c ≠ '-' → cfg.classify c = none →
        Turtle.draw ops cfg dl t g (.Symbol c :: rest) = Turtle.draw ops cfg dl t g rest) := by
  refine ⟨?_, ?_, ?_, ?_, ?_, ?_⟩
  · intro cfg c h
    exact classify_of_mem_draw_forward h
  · intro cfg c h1 h2
    simp [TurtleConfig.classify, h1, h2]
  · intro cfg c h1 h2 h3
    simp [TurtleConfig.classify, h1, h2, h3]
  · intro cfg c h1 h2 h3 h4
    simp [TurtleConfig.classify, h1, h2, h3, h4]
  · intro cfg c h1 h2 h3 h4
    simp [TurtleConfig.classify, h1, h2, h3, h4]
  · intro G E ops cfg dl t g rest c h1 h2 hcl
    simp [Turtle.draw, Turtle.drawOne, h1, h2, hcl]

/-- C9 witness: a character in several sets is classified by the
highest-priority one, and an unclassified character is a no-op. -/
theorem C9_classify_priority_witness :
    TurtleConfig.classify
      { delta_ang := 1, stepsize := 1, draw_forward := ['F'], draw_backward := ['f', 'B'],
        forward := ['f'], backwards := [] } 'f' = some .DrawBackward :=
  C9_classify_priority.2.1
    { delta_ang := 1, stepsize := 1, draw_forward := ['F'], draw_backward := ['f', 'B'],
      forward := ['f'], backwards := [] } 'f' (by decide) (by decide)

/-- C1: `Branch(inner)` runs the interpreter on `inner` with a value
copy of the current state and, on success, resumes the outer traversal
with the pre-branch state unchanged; drawing `[F]F` from `(0,0,0)` with
`F` draw-forward emits exactly two segments, both starting at
`(0, 0)`. -/
theorem C1_branch_isolation :
    (∀ {G E : Type} (ops : TrigOps) (cfg : TurtleConfig)
        (dl : G → ℚ × ℚ → ℚ × ℚ → Except E G) (t : Turtle) (g : G)
        (ins rest : Instructions) (e : E) (g1 : G),
        (Turtle.draw ops cfg dl t g ins = .error e →
          Turtle.draw ops cfg dl t g (.Branch ins :: rest) = .error e)
      ∧ (Turtle.draw ops cfg dl t g ins = .ok g1 →
          Turtle.draw ops cfg dl t g (.Branch ins :: rest) = Turtle.draw ops cfg dl t g1 rest))
  ∧ (∀ (ops : TrigOps) (cfg : TurtleConfig), 'F' ∈ cfg.draw_forward →
      Turtle.draw ops cfg recordSink Turtle.start [] progC1 =
        .ok [((0, 0), (ops.cos 0 * cfg.stepsize, ops.sin 0 * cfg.stepsize)),
             ((0, 0), (ops.cos 0 * cfg.stepsize, ops.sin 0 * cfg.stepsize))]) := by
  constructor
  · intro G E ops cfg dl t g ins rest e g1
    constructor
    · intro h
      simp [Turtle.draw, Turtle.drawOne, h]
    · intro h
      simp [Turtle.draw, Turtle.drawOne, h]
  · intro ops cfg h
    have hcl := classify_of_mem_draw_forward h
    rw [Turtle.draw_runSegs]
    have hsegs : Turtle.segs ops cfg Turtle.start progC1 =
        [(((0 : ℚ), (0 : ℚ)), (ops.cos 0 * cfg.stepsize, ops.sin 0 * cfg.stepsize)),
         (((0 : ℚ), (0 : ℚ)), (ops.cos 0 * cfg.stepsize, ops.sin 0 * cfg.stepsize))] := by
      simp [progC1, Turtle.segs, Turtle.stepSegs, hcl, Turtle.start, Turtle.step_forward,
        Turtle.pos]
    rw [hsegs, runSegs_recordSink]
    rfl

/-- C1 witness: the two-segment run evaluated at a concrete
configuration. -/
theorem C1_branch_isolation_witness :
    Turtle.draw opsW cfgW recordSink Turtle.start [] progC1 =
      .ok [((0, 0), (opsW.cos 0 * cfgW.stepsize, opsW.sin 0 * cfgW.stepsize)),
           ((0, 0), (opsW.cos 0 * cfgW.stepsize, opsW.sin 0 * cfgW.stepsize))] :=
  C1_branch_isolation.2 opsW cfgW (by decide)

/-- C5: if the sink never fails, `draw` returns `Ok`; and when the sink
fails, the error value is returned unchanged as the result of the
top-level call, with no further sink call made afterwards: a sink that
fails on its `k`-th call sees exactly the first `k` segments. -/
theorem C5_error_propagation :
    (∀ {G E : Type} (ops : TrigOps) (cfg : TurtleConfig)
        (dl : G → ℚ × ℚ → ℚ × ℚ → Except E G) (t : Turtle) (g : G) (instrs : Instructions),
        (∀ (s : G) (a b : ℚ × ℚ), ∃ s', dl s a b = .ok s') →
        ∃ g', Turtle.draw ops cfg dl t g instrs = .ok g')
  ∧ (∀ (ops : TrigOps) (cfg : TurtleConfig) (t : Turtle) (instrs : Instructions) (k : Nat),
        k < (Turtle.segs ops cfg t instrs).length →
        Turtle.draw ops cfg (failSink k) t (0, []) instrs =
          .error ((Turtle.segs ops cfg t instrs).take k)) := by
  constructor
  · intro G E ops cfg dl t g instrs hdl
    rw [Turtle.draw_runSegs]
    exact runSegs_ok_of_sink_ok hdl _ g
  · intro ops cfg t instrs k hk
    rw [Turtle.draw_runSegs]
    rw [runSegs_failSink k _ 0 [] (Nat.zero_le k)]
    rw [if_neg (by omega)]
    simp

/-- C5 witness: drawing `[F]F` against a sink that fails on its second
call propagates the error carrying exactly the first segment. -/
theorem C5_error_propagation_witness :
    Turtle.draw opsW cfgW (failSink 1) Turtle.start (0, []) progC1 =
      .error ((Turtle.segs opsW cfgW Turtle.start progC1).take 1) :=
  C5_error_propagation.2 opsW cfgW Turtle.start progC1 1 (by decide)
